import Mathlib

/-!
Verification of the coordination core of a Telegram private-chat relay bot.

The development shallowly embeds, in Lean:
 - the `RateLimitDO` Durable Object (SQLite-backed rate-limit counter and
   per-user lock lease store, file with `class RateLimitDO`);
 - the user-lock helpers `acquireUserLock` / `releaseUserLock` /
   `withUserLock` (heartbeat renewal, release-on-exit);
 - `checkRateLimit` (services/rate-limit.js) with its fail-open branch;
 - `probeForumThread` and the failure-description classifiers
   (services/topic-utils.js);
 - the destination-loss transition `resetUserVerificationAndRequireReverify`
   with its two triggering call sites in `forwardToTopic`
   (services/message-flow.js);
 - the pending-message set of the verification challenge and its replay
   (services/verification.js).

SQLite tables are modelled as association lists together with a proved
primary-key (no-duplicate-keys) invariant; machine time is `Int`
milliseconds; fallible RPCs return `Except`; JavaScript falsiness of a
number (`0`, `null`, `undefined`) is made explicit where the source
relies on it.
-/

namespace RelayBot

/-! ### Generic association-list model of a SQLite table keyed by PRIMARY KEY -/

/-- Model of `SELECT ... WHERE key = ?` followed by `.one()`: the first
row whose key matches, if any. -/
def alookup {α β : Type} [BEq α] (t : List (α × β)) (k : α) : Option β :=
  (t.find? (fun r => r.1 == k)).map Prod.snd

/-- Model of `INSERT ... ON CONFLICT(key) DO UPDATE SET ...`: when a row
with the key exists it is updated in place with `upd`, otherwise the row
`ins` is appended. -/
def sqlUpsert {α β : Type} [BEq α] (t : List (α × β)) (k : α) (ins : β) (upd : β → β) :
    List (α × β) :=
  if t.any (fun r => r.1 == k) then
    t.map (fun r => if r.1 == k then (r.1, upd r.2) else r)
  else
    t ++ [(k, ins)]

/-- Model of `UPDATE ... SET ... WHERE cond`. -/
def sqlUpdateWhere {α β : Type} (t : List (α × β)) (cond : α × β → Bool) (upd : β → β) :
    List (α × β) :=
  t.map (fun r => if cond r then (r.1, upd r.2) else r)

/-- Model of `DELETE FROM ... WHERE cond`; also returns `meta.changes`,
the number of deleted rows. -/
def sqlDeleteWhere {α β : Type} (t : List (α × β)) (cond : α × β → Bool) :
    List (α × β) × Nat :=
  (t.filter (fun r => not (cond r)), t.countP cond)

/-! ### RateLimitDO state

The Durable Object owns two SQLite tables (`rate_limits`, `user_locks`,
both with a TEXT PRIMARY KEY) and an in-process `Map` cache for the rate
limiter. All timestamps are Unix milliseconds. -/

/-- Row of the `user_locks` table. -/
structure LockRow where
  owner_token : String
  expires_at : Int
  created_at : Int
  updated_at : Int
deriving Repr, DecidableEq

/-- Row of the `rate_limits` table. -/
structure RateRow where
  count : Int
  expires_at : Int
  created_at : Int
  updated_at : Int
deriving Repr, DecidableEq

/-- Entry of the in-memory cache `Map<key, \x7b count, expiresAt \x7d>`. -/
structure CacheEntry where
  count : Int
  expiresAt : Int
deriving Repr, DecidableEq

/-- Full mutable state of one `RateLimitDO` instance. -/
structure DOState where
  cache : List (String × CacheEntry)
  rate_limits : List (String × RateRow)
  user_locks : List (String × LockRow)
deriving Repr, DecidableEq

/-- The initial state of a fresh Durable Object instance: empty tables,
empty cache. -/
def DOState.empty : DOState :=
  { cache := [], rate_limits := [], user_locks := [] }

/-- Result object of the `acquireLock` RPC. -/
structure AcquireOut where
  acquired : Bool
  retryAfterMs : Option Int
  ownerToken : Option String
  expiresAt : Option Int
deriving Repr, DecidableEq

/-- Result object of the `renewLock` RPC. -/
structure RenewOut where
  renewed : Bool
  expiresAt : Option Int
deriving Repr, DecidableEq

/-- Result object of the `releaseLock` RPC. -/
structure ReleaseOut where
  released : Bool
deriving Repr, DecidableEq

/-- Embedding of `RateLimitDO.acquireLock(lockKey, ownerToken, ttlMs)`
acting on the `user_locks` table, at time `now`. The parameter-presence
check (`throw` on falsy `lockKey`/`ownerToken`) is handled by the RPC
wrapper `applyLockOp` below, since a thrown error leaves the table
untouched. -/
def acquireLock (now : Int) (locks : List (String × LockRow))
    (lockKey ownerToken : String) (ttlMs : Int) :
    AcquireOut × List (String × LockRow) :=
  let ttl := max 1000 (if ttlMs = 0 then 15000 else ttlMs)
  let nextExpiresAt := now + ttl
  let blocked := match alookup locks lockKey with
    | some row => decide (now < row.expires_at) && decide (row.owner_token ≠ ownerToken)
    | none => false
  if blocked then
    match alookup locks lockKey with
    | some row =>
        ({ acquired := false, retryAfterMs := some (max 50 (row.expires_at - now)),
           ownerToken := none, expiresAt := none }, locks)
    | none =>
        -- unreachable: `blocked` is false when no row exists
        ({ acquired := false, retryAfterMs := none, ownerToken := none, expiresAt := none },
         locks)
  else
    ({ acquired := true, retryAfterMs := none, ownerToken := some ownerToken,
       expiresAt := some nextExpiresAt },
     sqlUpsert locks lockKey
       { owner_token := ownerToken, expires_at := nextExpiresAt,
         created_at := now, updated_at := now }
       (fun r => { r with owner_token := ownerToken, expires_at := nextExpiresAt,
                          updated_at := now }))

/-- Embedding of `RateLimitDO.releaseLock(lockKey, ownerToken)`:
`DELETE FROM user_locks WHERE lock_key = ? AND owner_token = ?`, with
`released` true when at least one row was deleted. -/
def releaseLock (locks : List (String × LockRow)) (lockKey ownerToken : String) :
    ReleaseOut × List (String × LockRow) :=
  let d := sqlDeleteWhere locks
    (fun r => r.1 == lockKey && r.2.owner_token == ownerToken)
  ({ released := decide (0 < d.2) }, d.1)

/-- Embedding of `RateLimitDO.renewLock(lockKey, ownerToken, ttlMs)`:
renewal fails (returning the bare `\x7b renewed: false \x7d` object) when no
row exists, the owner token differs, or the lease already expired;
otherwise `expires_at`/`updated_at` are updated in place. -/
def renewLock (now : Int) (locks : List (String × LockRow))
    (lockKey ownerToken : String) (ttlMs : Int) :
    RenewOut × List (String × LockRow) :=
  let ttl := max 1000 (if ttlMs = 0 then 15000 else ttlMs)
  let nextExpiresAt := now + ttl
  match alookup locks lockKey with
  | none => ({ renewed := false, expiresAt := none }, locks)
  | some row =>
    if row.owner_token ≠ ownerToken ∨ row.expires_at ≤ now then
      ({ renewed := false, expiresAt := none }, locks)
    else
      ({ renewed := true, expiresAt := some nextExpiresAt },
       sqlUpdateWhere locks
         (fun r => r.1 == lockKey && r.2.owner_token == ownerToken)
         (fun r => { r with expires_at := nextExpiresAt, updated_at := now }))

/-- Embedding of `RateLimitDO.cleanupExpired()`: deletes expired rows of
both tables and expired in-memory cache entries, returning the two
`meta.changes` counts. -/
def cleanupExpired (now : Int) (st : DOState) : (Nat × Nat) × DOState :=
  let r := sqlDeleteWhere st.rate_limits (fun x => decide (x.2.expires_at < now))
  let l := sqlDeleteWhere st.user_locks (fun x => decide (x.2.expires_at < now))
  let cache2 := st.cache.filter (fun x => not (decide (x.2.expiresAt < now)))
  ((r.2, l.2), { cache := cache2, rate_limits := r.1, user_locks := l.1 })

/-! ### Serial operation sequences on the lock store -/

/-- One serially executed RPC against the lock store (the operations of
claim C1). The Durable Object executes RPCs one at a time. -/
inductive LockOp where
  | acquire (now : Int) (lockKey ownerToken : String) (ttlMs : Int)
  | renew (now : Int) (lockKey ownerToken : String) (ttlMs : Int)
  | release (lockKey ownerToken : String)
  | cleanup (now : Int)
deriving Repr, DecidableEq

/-- Applies one RPC to the Durable Object state. A falsy (empty) `lockKey`
or `ownerToken` makes the JavaScript method throw before touching
storage, so the state is returned unchanged in that case. -/
def applyLockOp (st : DOState) : LockOp → DOState
  | .acquire now k tok ttl =>
    if k = "" ∨ tok = "" then st
    else { st with user_locks := (acquireLock now st.user_locks k tok ttl).2 }
  | .renew now k tok ttl =>
    if k = "" ∨ tok = "" then st
    else { st with user_locks := (renewLock now st.user_locks k tok ttl).2 }
  | .release k tok =>
    if k = "" ∨ tok = "" then st
    else { st with user_locks := (releaseLock st.user_locks k tok).2 }
  | .cleanup now => (cleanupExpired now st).2

/-- State reached from a fresh Durable Object by a serial sequence of
lock-store RPCs. -/
def lockReach (ops : List LockOp) : DOState :=
  ops.foldl applyLockOp DOState.empty

/-! ### The `check` RPC of the rate limiter -/

/-- Result object of the `check` RPC. -/
structure CheckOut where
  allowed : Bool
  remaining : Int
deriving Repr, DecidableEq

/-- Embedding of the reset branch of `check`: the record is absent or
expired, so the window is created/reset with `count = 1`. -/
def checkReset (now : Int) (st : DOState) (key : String) (limit window : Int) :
    CheckOut × DOState :=
  let expiresAt := now + window * 1000
  let rate2 := sqlUpsert st.rate_limits key
    { count := 1, expires_at := expiresAt, created_at := now, updated_at := now }
    (fun r => { r with count := 1, expires_at := expiresAt, updated_at := now })
  let cache2 := sqlUpsert st.cache key
    ({ count := 1, expiresAt := expiresAt })
    (fun _ => { count := 1, expiresAt := expiresAt })
  ({ allowed := true, remaining := limit - 1 },
   { st with cache := cache2, rate_limits := rate2 })

/-- Embedding of the cold path of `check` (cache miss or expired cache
entry): the SQLite row is consulted. -/
def checkCold (now : Int) (st : DOState) (key : String) (limit window : Int) :
    CheckOut × DOState :=
  match alookup st.rate_limits key with
  | some result =>
    if now < result.expires_at then
      if limit ≤ result.count then
        let cache2 := sqlUpsert st.cache key
          ({ count := result.count, expiresAt := result.expires_at })
          (fun _ => { count := result.count, expiresAt := result.expires_at })
        ({ allowed := false, remaining := 0 }, { st with cache := cache2 })
      else
        let rate2 := sqlUpdateWhere st.rate_limits (fun r => r.1 == key)
          (fun r => { r with count := r.count + 1, updated_at := now })
        let newCount := result.count + 1
        let cache2 := sqlUpsert st.cache key
          ({ count := newCount, expiresAt := result.expires_at })
          (fun _ => { count := newCount, expiresAt := result.expires_at })
        ({ allowed := true, remaining := limit - newCount },
         { st with cache := cache2, rate_limits := rate2 })
    else checkReset now st key limit window
  | none => checkReset now st key limit window

/-- Embedding of the body of `RateLimitDO.check(key, limit, window)` after
its parameter validation. The fast path is taken when the in-memory cache
holds an entry whose `expiresAt` is still in the future; note that on a
fast-path increment the cache entry's `expiresAt` is set to the fresh
`now + window * 1000` while the SQLite row keeps its original
`expires_at` (the `ON CONFLICT` clause does not touch `expires_at`). -/
def checkBody (now : Int) (st : DOState) (key : String) (limit window : Int) :
    CheckOut × DOState :=
  let expiresAt := now + window * 1000
  match alookup st.cache key with
  | some cached =>
    if now < cached.expiresAt then
      if limit ≤ cached.count then
        ({ allowed := false, remaining := 0 }, st)
      else
        let rate2 := sqlUpsert st.rate_limits key
          { count := cached.count + 1, expires_at := expiresAt,
            created_at := now, updated_at := now }
          (fun r => { r with count := r.count + 1, updated_at := now })
        let cache2 := sqlUpsert st.cache key
          ({ count := cached.count + 1, expiresAt := expiresAt })
          (fun _ => { count := cached.count + 1, expiresAt := expiresAt })
        ({ allowed := true, remaining := limit - (cached.count + 1) },
         { st with cache := cache2, rate_limits := rate2 })
    else checkCold now st key limit window
  | none => checkCold now st key limit window

/-- Embedding of the full `check` RPC including its parameter validation:
a falsy `key`, `limit` or `window` throws
`Missing parameters: key, limit, window`. -/
def check (now : Int) (st : DOState) (key : String) (limit window : Int) :
    Except String (CheckOut × DOState) :=
  if key = "" ∨ limit = 0 ∨ window = 0 then
    .error "Missing parameters: key, limit, window"
  else
    .ok (checkBody now st key limit window)

/-- Serial execution of one `check` call per element of `times` (the call
instants, in order), returning the list of `allowed` flags and the final
state. This is the Durable Object's serialized per-key execution model:
concurrent callers are queued and their RPC bodies run one after the
other. -/
def runChecks (key : String) (limit window : Int) : DOState → List Int → List Bool × DOState
  | st, [] => ([], st)
  | st, t :: ts =>
    let r := checkBody t st key limit window
    let rest := runChecks key limit window r.2 ts
    (r.1.allowed :: rest.1, rest.2)

/-- Modelled from the spec: the reference algorithm of section 4.1 for a
single `check` call, acting on the durable record alone (the durable
record is the declared source of truth). Returns the response and the
updated record. -/
def checkSpecAlgorithm (now : Int) (rec : Option RateRow) (limit window : Int) :
    CheckOut × Option RateRow :=
  match rec with
  | some r =>
    if now < r.expires_at then
      if limit ≤ r.count then
        ({ allowed := false, remaining := 0 }, some r)
      else
        ({ allowed := true, remaining := limit - (r.count + 1) },
         some { r with count := r.count + 1, updated_at := now })
    else
      ({ allowed := true, remaining := limit - 1 },
       some { count := 1, expires_at := now + window * 1000,
              created_at := now, updated_at := now })
  | none =>
    ({ allowed := true, remaining := limit - 1 },
     some { count := 1, expires_at := now + window * 1000,
            created_at := now, updated_at := now })

/-! ### checkRateLimit (services/rate-limit.js) -/

/-- Error thrown by a failed Durable Object `check` call, with the flags
the catch block inspects. -/
structure DOCallError where
  message : String
  retryable : Bool
  overloaded : Bool
deriving Repr, DecidableEq

/-- Log records emitted by `checkRateLimit`. -/
inductive RateLimitLog where
  | warnNotConfigured
  | warnRetryableError (message : String)
  | warnOverloaded
  | errorCallFailed (message : String)
deriving Repr, DecidableEq

/-- Embedding of `checkRateLimit(userId, env, action, limit, window)`.
Inputs abstract the environment: `doConfigured` is the presence of
`env.RATE_LIMIT_DO`; `doCall` is the outcome of the
`stub.check(...)` RPC (only consulted when the DO is configured);
`kvCount` is the integer stored at `ratelimit:action:userId` in the KV
fallback (only consulted otherwise). Returns the caller-visible result,
the logs written, and the updated KV counter. -/
def checkRateLimit (doConfigured : Bool) (doCall : Except DOCallError CheckOut)
    (kvCount : Option Int) (limit : Int) :
    CheckOut × List RateLimitLog × Option Int :=
  if doConfigured = false then
    let count := kvCount.getD 0
    if limit ≤ count then
      ({ allowed := false, remaining := 0 }, [RateLimitLog.warnNotConfigured], kvCount)
    else
      ({ allowed := true, remaining := limit - count - 1 },
       [RateLimitLog.warnNotConfigured], some (count + 1))
  else
    match doCall with
    | .ok result => ({ allowed := result.allowed, remaining := result.remaining }, [], kvCount)
    | .error e =>
      let log :=
        if e.retryable then RateLimitLog.warnRetryableError e.message
        else if e.overloaded then RateLimitLog.warnOverloaded
        else RateLimitLog.errorCallFailed e.message
      ({ allowed := true, remaining := limit }, [log], kvCount)

/-! ### probeForumThread (services/topic-utils.js) -/

/-- JavaScript `String.prototype.includes` on our strings. -/
def jsIncludes (s sub : String) : Bool :=
  decide ((s.splitOn sub).length ≠ 1)

/-- Embedding of `normalizeTgDescription`: `(description || '')`
lower-cased. -/
def normalizeTgDescription (description : Option String) : String :=
  (description.getD "").toLower

/-- Embedding of `isTopicMissingOrDeleted`. -/
def isTopicMissingOrDeleted (description : Option String) : Bool :=
  let desc := normalizeTgDescription description
  jsIncludes desc "thread not found" ||
  jsIncludes desc "topic not found" ||
  jsIncludes desc "message thread not found" ||
  jsIncludes desc "topic deleted" ||
  jsIncludes desc "thread deleted" ||
  jsIncludes desc "forum topic not found" ||
  jsIncludes desc "topic closed permanently"

/-- Embedding of `isTestMessageInvalid`. -/
def isTestMessageInvalid (description : Option String) : Bool :=
  let desc := normalizeTgDescription description
  jsIncludes desc "message text is empty" ||
  jsIncludes desc "bad request: message text is empty"

/-- Structured acknowledgment of a `sendMessage`/`copyMessage` platform
call: `ok`, an error `description` on failure, and on success the
destination `message_thread_id` (possibly omitted) and the `message_id`
of the created message. -/
structure TgSendResult where
  ok : Bool
  description : Option String
  message_thread_id : Option Int
  message_id : Option Int
deriving Repr, DecidableEq

/-- Classification returned by the thread-health probe. -/
inductive ProbeStatus where
  | statusOk
  | missing
  | probe_invalid
  | unknown_error
  | missing_thread_id
  | redirected (actualThreadId : Int)
deriving Repr, DecidableEq

/-- Embedding of one `attemptOnce()` inside `probeForumThread`: classify
the acknowledgment of the probe send, and retract the probe message when
one was created (second component: deleted message ids). -/
def attemptOnce (expectedThreadId : Int) (res : TgSendResult) :
    ProbeStatus × List Int :=
  let deleted := if res.ok then
      match res.message_id with
      | some m => [m]
      | none => []
    else []
  if res.ok = false then
    (if isTopicMissingOrDeleted res.description then ProbeStatus.missing
     else if isTestMessageInvalid res.description then ProbeStatus.probe_invalid
     else ProbeStatus.unknown_error, deleted)
  else
    match res.message_thread_id with
    | none => (ProbeStatus.missing_thread_id, deleted)
    | some actual =>
      if actual ≠ expectedThreadId then (ProbeStatus.redirected actual, deleted)
      else (ProbeStatus.statusOk, deleted)

/-- Embedding of `probeForumThread(env, expectedThreadId, opts)`.
`first`/`second` are the platform acknowledgments of the (up to two)
probe sends; the second is consulted only when the first classifies
`missing_thread_id` and `doubleCheckOnMissingThreadId` is set. Returns
the final status and the number of probe attempts performed. -/
def probeForumThread (expectedThreadId : Int) (doubleCheckOnMissingThreadId : Bool)
    (first second : TgSendResult) : ProbeStatus × Nat :=
  let f := attemptOnce expectedThreadId first
  if f.1 ≠ ProbeStatus.missing_thread_id ∨ doubleCheckOnMissingThreadId = false then
    (f.1, 1)
  else
    ((attemptOnce expectedThreadId second).1, 2)

/-! ### withUserLock (user-lock helper module)

`withUserLock(env, userId, fn, config)` acquires the per-user lock, then
runs `fn` while a background heartbeat loop periodically calls
`renewLock`. We model an execution after a successful acquisition as an
explicit interleaving: a schedule of atomic events, each either one
externally-visible side-effecting step of the critical section `fn`, one
heartbeat renewal returning `renewed` true or false, or one heartbeat
renewal call that throws (caught and logged by the loop). The `finally`
block then stops the heartbeat and calls
`releaseUserLock(env, userId, lockState)` with the acquired lock state,
which in Durable Object mode calls `releaseLock` with the acquired
`lockKey` and `ownerToken`. -/

/-- One scheduled atomic event during `withUserLock`. -/
inductive WulEvent where
  | sectionStep
  | heartbeatRenew (renewed : Bool)
  | heartbeatThrow
deriving Repr, DecidableEq

/-- Instantaneous execution state of `withUserLock` while `fn` runs:
the section steps already performed (in order), those of them performed
after `heartbeatError` was set, the steps still to run, and the two
JavaScript flags `stopHeartbeat` and `heartbeatError`. -/
structure WulState where
  performed : List Nat
  afterLost : List Nat
  stepsLeft : List Nat
  stopHeartbeat : Bool
  heartbeatError : Bool
deriving Repr, DecidableEq

/-- Small-step semantics of one scheduled event, following the source:
a section step always executes (nothing in the `fn()` call consults
`heartbeatError`); a rejected renewal observed while the loop is live
sets `heartbeatError` and `stopHeartbeat` and exits the loop; a renewal
that throws is caught, logged with `cfg.logger.warn`, and the loop
continues. -/
def wulStep (st : WulState) : WulEvent → WulState
  | WulEvent.sectionStep =>
    match st.stepsLeft with
    | [] => st
    | s :: rest =>
      { st with performed := st.performed ++ [s],
                afterLost := if st.heartbeatError then st.afterLost ++ [s] else st.afterLost,
                stepsLeft := rest }
  | WulEvent.heartbeatRenew renewed =>
    if st.stopHeartbeat then st
    else if renewed then st
    else { st with heartbeatError := true, stopHeartbeat := true }
  | WulEvent.heartbeatThrow => st

/-- The execution state reached by a schedule, starting right after the
lock was acquired with the critical section's side-effect steps pending. -/
def wulExec (steps : List Nat) (schedule : List WulEvent) : WulState :=
  schedule.foldl wulStep
    { performed := [], afterLost := [], stepsLeft := steps,
      stopHeartbeat := false, heartbeatError := false }

/-- Outcome of the whole `withUserLock` call. -/
inductive WulResult where
  | value
  | userLockLost
  | fnException
deriving Repr, DecidableEq

/-- Observable summary of one complete `withUserLock` execution. -/
structure WulOutcome where
  effects : List Nat
  effectsAfterLost : List Nat
  result : WulResult
  releaseCalledWith : Option (String × String)
  heartbeatStopped : Bool
deriving Repr, DecidableEq

/-- Embedding of `withUserLock` after a successful acquisition that
returned `lockState = \x7b ownerToken, lockKey, mode: do \x7d`: the schedule
is executed, then per the source the `try` block rethrows
`heartbeatError` when `fn` returned normally, and the `finally` block
sets `stopHeartbeat`, awaits the loop, and invokes `releaseUserLock`,
i.e. `releaseLock(lockState.lockKey, lockState.ownerToken)`. `fnThrows`
records whether `fn` itself threw after its steps ran. -/
def runWithUserLock (lockKey ownerToken : String) (steps : List Nat)
    (fnThrows : Bool) (schedule : List WulEvent) : WulOutcome :=
  let final := wulExec steps schedule
  let result :=
    if fnThrows then WulResult.fnException
    else if final.heartbeatError then WulResult.userLockLost
    else WulResult.value
  { effects := final.performed,
    effectsAfterLost := final.afterLost,
    result := result,
    releaseCalledWith := some (lockKey, ownerToken),
    heartbeatStopped := true }

/-! ### Verification challenges and the pending message set
(services/verification.js) -/

/-- The bound `CONFIG.PENDING_MAX_MESSAGES` (config/constants.js). -/
def PENDING_MAX_MESSAGES : Nat := 10

/-- JavaScript truthiness of an optional numeric value (absent, `null`,
and `0` are falsy). -/
def jsTruthy (o : Option Int) : Bool :=
  match o with
  | none => false
  | some v => decide (v ≠ 0)

/-- Persisted challenge state `chal:verifyId`. Legacy records carry a
single `pending` id instead of the `pending_ids` array. -/
structure ChalRec where
  answerIndex : Int
  options : List String
  pending_ids : Option (List Int)
  pending : Option Int
  userId : Int
deriving Repr, DecidableEq

/-- The pending list read out of a challenge record:
`state.pending_ids` if it is an array, else the singleton legacy
`state.pending`, else empty. -/
def pendingBase (c : ChalRec) : List Int :=
  match c.pending_ids with
  | some l => l
  | none =>
    match c.pending with
    | some p => [p]
    | none => []

/-- Embedding of the FIFO trim
`if (pendingIds.length > MAX) pendingIds = pendingIds.slice(len - MAX)`:
keeps the newest `PENDING_MAX_MESSAGES` entries, dropping the oldest. -/
def trimPending (l : List Int) : List Int :=
  if PENDING_MAX_MESSAGES < l.length then l.drop (l.length - PENDING_MAX_MESSAGES) else l

/-- Embedding of the duplicate-challenge branch of
`sendVerificationChallengeImpl` that enqueues `pendingMsgId` into an
existing challenge: push unless already present, trim, convert the
legacy `pending` field. When the id is already present the stored state
is not rewritten. -/
def appendPending (c : ChalRec) (m : Int) : ChalRec :=
  let base := pendingBase c
  if base.contains m then c
  else { c with pending_ids := some (trimPending (base ++ [m])), pending := none }

/-- Fresh challenge state created by `sendVerificationChallengeImpl`:
`pending_ids` is `[pendingMsgId]` when that argument is truthy, else
empty. -/
def freshChal (userId : Int) (answerIndex : Int) (options : List String)
    (pendingMsgId : Option Int) : ChalRec :=
  { answerIndex := answerIndex, options := options,
    pending_ids := some (if jsTruthy pendingMsgId then [pendingMsgId.getD 0] else []),
    pending := none, userId := userId }

/-- Embedding of the replay loop of `handleCallbackQueryImpl` over the
(already trimmed) pending ids: a falsy id is skipped, an id whose
`forwarded:userId:msgId` marker exists is skipped, otherwise the message
is forwarded and its marker is written. Returns the forwarded ids in
order and the updated marker set. -/
def replayPending : List Int → List Int → List Int × List Int
  | [], markers => ([], markers)
  | m :: rest, markers =>
    if m = 0 then replayPending rest markers
    else if markers.contains m then replayPending rest markers
    else
      let r := replayPending rest (markers ++ [m])
      (m :: r.1, r.2)

/-- The pending ids actually replayed on challenge completion: the
stored list (with legacy conversion) trimmed to the bound, as done at
the top of the replay branch. -/
def replayedIds (c : ChalRec) : List Int :=
  trimPending (pendingBase c)

/-! ### The self-healing router's Lost transition
(services/message-flow.js)

State relevant to one user and their bound thread, across the durable
stores (D1 columns or KV keys) and the in-process health cache. -/

/-- The user topic binding (`user:userId` KV record / `users` D1 row). -/
structure UserRec where
  thread_id : Option Int
  title : Option String
  closed : Bool
deriving Repr, DecidableEq

/-- Durable plus in-process state touched by the destination-loss
transition, for one user. `verified` is the `verified:userId` marker (or
D1 `verify_state`); `needs_verify` the `needs_verify:userId` marker;
`retry` the `retry:userId` counter; `threadUser` the thread-to-user map
(`thread:id` keys / `threads` rows); `thread_ok` the durable
`thread_ok:id` health markers; `healthCacheOk` the in-process
`threadHealthCache` entries; `user_challenge`/`chal` the verification
subsystem's keys. -/
structure RouterState where
  verified : Bool
  needs_verify : Bool
  retry : Option Int
  userRec : Option UserRec
  threadUser : List (Int × Int)
  thread_ok : List Int
  healthCacheOk : List Int
  user_challenge : Option String
  chal : List (String × ChalRec)
deriving Repr, DecidableEq

/-- The thread id the user is currently bound to, if any. -/
def bindingThreadId (st : RouterState) : Option Int :=
  match st.userRec with
  | some r => r.thread_id
  | none => none

/-- Model of `Map.set` / a KV marker put for a set of thread ids. -/
def listInsert (l : List Int) (x : Int) : List Int :=
  if l.contains x then l else l ++ [x]

/-- Embedding of the fresh-challenge tail of
`sendVerificationChallengeImpl` (after the duplicate-challenge check):
the `verify` rate limit is consulted (`verifyAllowed` is its `allowed`
field); when denied, only an apology message is sent and no challenge is
created; otherwise the challenge state and the `user_challenge` pointer
are written. `verifyId`, `answerIndex` and `options` stand for the
randomly generated challenge content. -/
def sendFreshChallenge (st : RouterState) (userId : Int) (pendingMsgId : Option Int)
    (verifyAllowed : Bool) (verifyId : String) (answerIndex : Int)
    (options : List String) : RouterState :=
  if verifyAllowed = false then st
  else
    let state := freshChal userId answerIndex options pendingMsgId
    { st with chal := sqlUpsert st.chal verifyId state (fun _ => state),
              user_challenge := some verifyId }

/-- Embedding of `sendVerificationChallengeImpl`: when the user already
has an outstanding challenge whose state is present and owned by them,
a truthy `pendingMsgId` is enqueued into its pending set (deduplicated
and FIFO-trimmed) and no new challenge is issued; a dangling
`user_challenge` pointer is deleted and a fresh challenge is issued. -/
def sendVerificationChallenge (st : RouterState) (userId : Int)
    (pendingMsgId : Option Int) (verifyAllowed : Bool) (verifyId : String)
    (answerIndex : Int) (options : List String) : RouterState :=
  match st.user_challenge with
  | none => sendFreshChallenge st userId pendingMsgId verifyAllowed verifyId answerIndex options
  | some existingChallenge =>
    match alookup st.chal existingChallenge with
    | none =>
      sendFreshChallenge { st with user_challenge := none } userId pendingMsgId
        verifyAllowed verifyId answerIndex options
    | some state =>
      if state.userId ≠ userId then
        sendFreshChallenge { st with user_challenge := none } userId pendingMsgId
          verifyAllowed verifyId answerIndex options
      else if jsTruthy pendingMsgId then
        let m := pendingMsgId.getD 0
        if (pendingBase state).contains m then st
        else
          let state2 := appendPending state m
          { st with chal := sqlUpsert st.chal existingChallenge state2 (fun _ => state2) }
      else st

/-- Embedding of `resetUserVerificationAndRequireReverifyImpl`, the
`Lost` transition: clear the verification state, set the
re-verification marker, drop the retry counter, clear the thread
binding (D1 column update or KV delete of `userKey`), delete the old
thread's map entry, durable health marker and in-process health cache
entry, and re-issue a verification challenge with the triggering
message id (`pendingMsgId || null`) enqueued as pending. -/
def resetUserVerification (hasD1 : Bool) (st : RouterState) (userId : Int)
    (userKeyGiven : Bool) (oldThreadId : Option Int) (pendingMsgId : Option Int)
    (verifyAllowed : Bool) (verifyId : String) (answerIndex : Int)
    (options : List String) : RouterState :=
  let st1 := { st with verified := false, needs_verify := true, retry := none }
  let st2 :=
    if hasD1 then
      { st1 with userRec := some { thread_id := none, title := none, closed := false } }
    else if userKeyGiven then
      { st1 with userRec := none }
    else st1
  let st3 :=
    match oldThreadId with
    | none => st2
    | some tid =>
      { st2 with threadUser := st2.threadUser.filter (fun r => decide (r.1 ≠ tid)),
                 thread_ok := st2.thread_ok.filter (fun x => decide (x ≠ tid)),
                 healthCacheOk := st2.healthCacheOk.filter (fun x => decide (x ≠ tid)) }
  sendVerificationChallenge st3 userId
    (if jsTruthy pendingMsgId then pendingMsgId else none)
    verifyAllowed verifyId answerIndex options

/-- Embedding of the health-probe dispatch inside `forwardToTopicImpl`
(the cache-miss branch): a probe classification of `redirected`,
`missing` or `missing_thread_id` drives the `Lost` transition with the
triggering message enqueued; `probe_invalid` marks the thread healthy;
`unknown_error` only logs; a healthy probe clears the retry counter and
marks the thread healthy. The second component reports whether the
`Lost` transition was performed. -/
def handleHealthProbe (hasD1 : Bool) (st : RouterState) (userId : Int)
    (userKeyGiven : Bool) (threadId : Int) (msgId : Int) (verifyAllowed : Bool)
    (verifyId : String) (answerIndex : Int) (options : List String)
    (probe : ProbeStatus) : RouterState × Bool :=
  match probe with
  | ProbeStatus.redirected _ =>
    (resetUserVerification hasD1 st userId userKeyGiven (some threadId) (some msgId)
       verifyAllowed verifyId answerIndex options, true)
  | ProbeStatus.missing =>
    (resetUserVerification hasD1 st userId userKeyGiven (some threadId) (some msgId)
       verifyAllowed verifyId answerIndex options, true)
  | ProbeStatus.missing_thread_id =>
    (resetUserVerification hasD1 st userId userKeyGiven (some threadId) (some msgId)
       verifyAllowed verifyId answerIndex options, true)
  | ProbeStatus.probe_invalid =>
    ({ st with healthCacheOk := listInsert st.healthCacheOk threadId,
               thread_ok := listInsert st.thread_ok threadId }, false)
  | ProbeStatus.unknown_error => (st, false)
  | ProbeStatus.statusOk =>
    ({ st with retry := none,
               healthCacheOk := listInsert st.healthCacheOk threadId,
               thread_ok := listInsert st.thread_ok threadId }, false)

/-- Embedding of the quiet-redirect detection after the `copyMessage`
forward in `forwardToTopicImpl`: a successful acknowledgment carrying a
destination thread id different from the bound one first deletes the
orphaned copy when its `message_id` is known (first component: deleted
message ids), then drives the same `Lost` transition with the
triggering message enqueued. The last component reports whether the
transition was performed. -/
def handleForwardAck (hasD1 : Bool) (st : RouterState) (userId : Int)
    (userKeyGiven : Bool) (expectedThreadId : Int) (msgId : Int)
    (verifyAllowed : Bool) (verifyId : String) (answerIndex : Int)
    (options : List String) (copyresult : TgSendResult) :
    List Int × RouterState × Bool :=
  match copyresult.message_thread_id with
  | some actual =>
    if copyresult.ok ∧ actual ≠ expectedThreadId then
      (match copyresult.message_id with
       | some m => [m]
       | none => [],
       resetUserVerification hasD1 st userId userKeyGiven (some expectedThreadId)
         (some msgId) verifyAllowed verifyId answerIndex options,
       true)
    else ([], st, false)
  | none => ([], st, false)

/-! ## Theorems -/

/-! ### Primary-key discipline of the lock store -/

theorem keys_sqlUpdateWhere {α β : Type} (t : List (α × β)) (cond : α × β → Bool)
    (upd : β → β) :
    (sqlUpdateWhere t cond upd).map Prod.fst = t.map Prod.fst := by
  unfold sqlUpdateWhere
  rw [List.map_map]
  apply List.map_congr_left
  intro r _
  by_cases h : cond r <;> simp [h]

theorem nodupKeys_sqlUpsert {β : Type} {t : List (String × β)} (k : String)
    (ins : β) (upd : β → β) (h : (t.map Prod.fst).Nodup) :
    ((sqlUpsert t k ins upd).map Prod.fst).Nodup := by
  unfold sqlUpsert
  split
  · have heq : (t.map (fun r => if r.1 == k then (r.1, upd r.2) else r)).map Prod.fst
        = t.map Prod.fst := by
      rw [List.map_map]
      apply List.map_congr_left
      intro r _
      by_cases hrk : r.1 = k <;> simp [hrk]
    rw [heq]
    exact h
  · next hany =>
    rw [List.map_append]
    simp only [List.map_cons, List.map_nil]
    rw [List.nodup_append]
    refine ⟨h, List.nodup_singleton k, ?_⟩
    intro a ha hb
    simp only [List.mem_singleton] at hb
    subst hb
    simp only [List.mem_map] at ha
    obtain ⟨r, hr, hrk⟩ := ha
    exact absurd (List.any_eq_true.mpr ⟨r, hr, by simp [hrk]⟩) hany

theorem nodupKeys_sqlDeleteWhere {α β : Type} {t : List (α × β)}
    (cond : α × β → Bool) (h : (t.map Prod.fst).Nodup) :
    (((sqlDeleteWhere t cond).1).map Prod.fst).Nodup := by
  unfold sqlDeleteWhere
  exact h.sublist (List.Sublist.map Prod.fst (List.filter_sublist t))

theorem nodupKeys_acquireLock {locks : List (String × LockRow)} (now : Int)
    (k tok : String) (ttl : Int) (h : (locks.map Prod.fst).Nodup) :
    (((acquireLock now locks k tok ttl).2).map Prod.fst).Nodup := by
  unfold acquireLock
  dsimp only
  split
  · split <;> exact h
  · dsimp only
    exact nodupKeys_sqlUpsert k _ _ h

theorem nodupKeys_renewLock {locks : List (String × LockRow)} (now : Int)
    (k tok : String) (ttl : Int) (h : (locks.map Prod.fst).Nodup) :
    (((renewLock now locks k tok ttl).2).map Prod.fst).Nodup := by
  unfold renewLock
  dsimp only
  split
  · exact h
  · split
    · exact h
    · dsimp only
      rw [keys_sqlUpdateWhere]
      exact h


theorem nodupKeys_releaseLock {locks : List (String × LockRow)}
    (k tok : String) (h : (locks.map Prod.fst).Nodup) :
    (((releaseLock locks k tok).2).map Prod.fst).Nodup := by
  unfold releaseLock
  exact nodupKeys_sqlDeleteWhere _ h

theorem nodupKeys_applyLockOp (st : DOState) (op : LockOp)
    (h : (st.user_locks.map Prod.fst).Nodup) :
    (((applyLockOp st op).user_locks).map Prod.fst).Nodup := by
  cases op with
  | acquire now k tok ttl =>
    simp only [applyLockOp]
    split
    · exact h
    · exact nodupKeys_acquireLock now k tok ttl h
  | renew now k tok ttl =>
    simp only [applyLockOp]
    split
    · exact h
    · exact nodupKeys_renewLock now k tok ttl h
  | release k tok =>
    simp only [applyLockOp]
    split
    · exact h
    · exact nodupKeys_releaseLock k tok h
  | cleanup now =>
    simp only [applyLockOp, cleanupExpired]
    exact nodupKeys_sqlDeleteWhere _ h

theorem nodupKeys_foldl_lockOps (ops : List LockOp) :
    ∀ st : DOState, (st.user_locks.map Prod.fst).Nodup →
    (((ops.foldl applyLockOp st).user_locks).map Prod.fst).Nodup := by
  induction ops with
  | nil => intro st h; exact h
  | cons op rest ih =>
    intro st h
    exact ih (applyLockOp st op) (nodupKeys_applyLockOp st op h)

theorem nodupKeys_lockReach (ops : List LockOp) :
    (((lockReach ops).user_locks).map Prod.fst).Nodup :=
  nodupKeys_foldl_lockOps ops DOState.empty (by simp [DOState.empty])

theorem countP_keyMatch_le_one {β : Type} (t : List (String × β)) (k : String)
    (p : String × β → Bool) (h : (t.map Prod.fst).Nodup) :
    t.countP (fun r => r.1 == k && p r) ≤ 1 := by
  induction t with
  | nil => simp
  | cons a rest ih =>
    simp only [List.map_cons, List.nodup_cons] at h
    obtain ⟨hnotin, hrest⟩ := h
    rw [List.countP_cons]
    by_cases hak : (a.1 == k && p a) = true
    · have hkey : a.1 = k := by
        have h1 := hak
        simp only [Bool.and_eq_true, beq_iff_eq] at h1
        exact h1.1
      have hzero : rest.countP (fun r => r.1 == k && p r) = 0 := by
        apply List.countP_eq_zero.mpr
        intro r hr
        have hne : r.1 ≠ a.1 := by
          intro hcontra
          exact hnotin (hcontra ▸ List.mem_map_of_mem Prod.fst hr)
        simp only [Bool.and_eq_true, beq_iff_eq, not_and]
        intro h1
        exact absurd (h1.trans hkey.symm) hne
      simp [hak, hzero]
    · simp [hak]
      exact ih hrest

theorem alookup_eq_of_mem_nodup {β : Type} {t : List (String × β)} {k : String}
    {v : β} (h : (t.map Prod.fst).Nodup) (hm : (k, v) ∈ t) :
    alookup t k = some v := by
  induction t with
  | nil => cases hm
  | cons a rest ih =>
    simp only [List.map_cons, List.nodup_cons] at h
    obtain ⟨hnotin, hrest⟩ := h
    rcases List.mem_cons.mp hm with hhead | htail
    · subst hhead
      unfold alookup
      rw [List.find?_cons_of_pos _ (by simp)]
      rfl
    · have hne : a.1 ≠ k := by
        intro hcontra
        apply hnotin
        have : k ∈ rest.map Prod.fst := List.mem_map_of_mem Prod.fst htail
        simpa [hcontra]
      unfold alookup
      rw [List.find?_cons_of_neg _ (by simpa using hne)]
      exact ih hrest htail

theorem renewLock_mismatch {locks : List (String × LockRow)} {k tok : String}
    {row : LockRow} (now ttl : Int) (hrow : alookup locks k = some row)
    (hmis : row.owner_token ≠ tok) :
    renewLock now locks k tok ttl = ({ renewed := false, expiresAt := none }, locks) := by
  unfold renewLock
  rw [hrow]
  simp [hmis]

theorem releaseLock_mismatch {locks : List (String × LockRow)} {k tok : String}
    {row : LockRow} (hnd : (locks.map Prod.fst).Nodup)
    (hrow : alookup locks k = some row) (hmis : row.owner_token ≠ tok) :
    releaseLock locks k tok = ({ released := false }, locks) := by
  have hall : ∀ r ∈ locks, (r.1 == k && r.2.owner_token == tok) = false := by
    intro r hr
    by_cases hk : r.1 = k
    · have hv : alookup locks k = some r.2 := by
        apply alookup_eq_of_mem_nodup hnd
        have : r = (k, r.2) := by
          cases r
          simp_all
        exact this ▸ hr
      rw [hrow] at hv
      have : r.2 = row := by injection hv.symm
      simp [this, hk, hmis]
    · simp [hk]
  have hcount : locks.countP (fun r => r.1 == k && r.2.owner_token == tok) = 0 :=
    List.countP_eq_zero.mpr (by intro r hr; simp [hall r hr])
  have hfilter : locks.filter (fun r => not (r.1 == k && r.2.owner_token == tok)) = locks :=
    List.filter_eq_self.mpr (by intro r hr; simp [hall r hr])
  unfold releaseLock sqlDeleteWhere
  simp only [hcount, hfilter]
  simp

/-- C1: along every serial sequence of `acquireLock`, `renewLock`,
`releaseLock` and `cleanupExpired` operations from a fresh lock store,
every reachable state keeps at most one row — hence at most one
non-expired `ownerToken` — per `lockKey`, and a `renewLock` or
`releaseLock` call presenting a token different from the current
lease's `ownerToken` is rejected and leaves the table unchanged. -/
theorem c1_lock_store_invariant (ops : List LockOp) (k tok : String)
    (now ttl : Int) (row : LockRow)
    (hrow : alookup (lockReach ops).user_locks k = some row)
    (hmis : row.owner_token ≠ tok) :
    (∀ (k2 : String) (t2 : Int),
        (lockReach ops).user_locks.countP
          (fun r => r.1 == k2 && decide (t2 < r.2.expires_at)) ≤ 1)
    ∧ renewLock now (lockReach ops).user_locks k tok ttl
        = ({ renewed := false, expiresAt := none }, (lockReach ops).user_locks)
    ∧ releaseLock (lockReach ops).user_locks k tok
        = ({ released := false }, (lockReach ops).user_locks) := by
  refine ⟨?_, ?_, ?_⟩
  · intro k2 t2
    exact countP_keyMatch_le_one _ k2 _ (nodupKeys_lockReach ops)
  · exact renewLock_mismatch now ttl hrow hmis
  · exact releaseLock_mismatch (nodupKeys_lockReach ops) hrow hmis

/-- Witness for C1 at a concrete input: after one acquisition by owner
`A`, a renewal presented by owner `B` is rejected and leaves the store
unchanged. -/
theorem c1_lock_store_invariant_witness :
    renewLock 6000 (lockReach [LockOp.acquire 0 "k" "A" 5000]).user_locks "k" "B" 5000
      = ({ renewed := false, expiresAt := none },
         (lockReach [LockOp.acquire 0 "k" "A" 5000]).user_locks) :=
  (c1_lock_store_invariant [LockOp.acquire 0 "k" "A" 5000] "k" "B" 6000 5000
    { owner_token := "A", expires_at := 5000, created_at := 0, updated_at := 0 }
    (by decide) (by decide)).2.1

/-! ### C4: renewLock success condition and failure results -/

/-- C4 counterexample: `renewLock` returns the identical failure object
`\x7b renewed: false \x7d` both when the caller's own lease has expired
(owner `A` at time 200, lease expired at 100) and when a different owner
now holds an unexpired lease (owner `B` until 1000), so the two failures
are not distinguishable by the caller, contrary to the claim. -/
theorem c4_failures_indistinguishable :
    (renewLock 200 [("k", LockRow.mk "A" 100 0 0)] "k" "A" 15000).1
      = (renewLock 200 [("k", LockRow.mk "B" 1000 0 0)] "k" "A" 15000).1
    ∧ (renewLock 200 [("k", LockRow.mk "A" 100 0 0)] "k" "A" 15000).1.renewed = false := by
  constructor
  · rfl
  · rfl

/-- C4 amended: `renewLock` succeeds exactly when the presented
`ownerToken` matches the current lease holder and the lease has not yet
expired; every failure returns the one constant result object
`\x7b renewed: false \x7d`, carrying no indication of which failure
occurred. -/
theorem c4_renew_success_iff (now : Int) (locks : List (String × LockRow))
    (k tok : String) (ttl : Int) :
    ((renewLock now locks k tok ttl).1.renewed = true ↔
      ∃ row : LockRow, alookup locks k = some row
        ∧ row.owner_token = tok ∧ now < row.expires_at)
    ∧ ((renewLock now locks k tok ttl).1
        = { renewed := false, expiresAt := none }
      ∨ (renewLock now locks k tok ttl).1
        = { renewed := true,
            expiresAt := some (now + max 1000 (if ttl = 0 then 15000 else ttl)) }) := by
  constructor
  · constructor
    · intro hr
      unfold renewLock at hr
      cases hlook : alookup locks k with
      | none => rw [hlook] at hr; simp at hr
      | some row =>
        rw [hlook] at hr
        dsimp only at hr
        by_cases hcond : row.owner_token ≠ tok ∨ row.expires_at ≤ now
        · rw [if_pos hcond] at hr
          simp at hr
        · push_neg at hcond
          exact ⟨row, rfl, hcond.1, hcond.2⟩
    · rintro ⟨row, hrow, htok, hexp⟩
      unfold renewLock
      rw [hrow]
      dsimp only
      rw [if_neg (by push_neg; exact ⟨htok, hexp⟩)]
  · unfold renewLock
    cases hlook : alookup locks k with
    | none => left; rfl
    | some row =>
      dsimp only
      split
      · left; rfl
      · right; rfl

/-! ### C9: fail-open rate limiting -/

/-- C9: when the Durable Object rate-limit backend is configured but the
`check` RPC throws, `checkRateLimit` fails open: the caller receives
`allowed = true` with `remaining` equal to the full limit, and the
degradation is logged (one warn/error entry, depending on the error
flags). -/
theorem c9_rate_limit_fail_open (e : DOCallError) (kvCount : Option Int)
    (limit : Int) :
    (checkRateLimit true (Except.error e) kvCount limit).1
      = { allowed := true, remaining := limit }
    ∧ (checkRateLimit true (Except.error e) kvCount limit).2.1 ≠ [] := by
  unfold checkRateLimit
  dsimp only
  constructor
  · rfl
  · simp

/-! ### C7: probe classification -/

/-- C7: a probe send acknowledged as successful whose acknowledgment
carries a destination thread id numerically different from the expected
one always classifies as `redirected` (never `ok`), whether it happens
on the first attempt or on the re-probe; and when the successful
acknowledgment omits the destination thread id and double-checking is
enabled, a second probe attempt is made and its classification is what
the call returns. -/
theorem c7_probe_redirect_classification (expectedThreadId : Int) (dc : Bool)
    (first second : TgSendResult) (a : Int) :
    (first.ok = true → first.message_thread_id = some a → a ≠ expectedThreadId →
      probeForumThread expectedThreadId dc first second = (ProbeStatus.redirected a, 1))
    ∧ (first.ok = true → first.message_thread_id = none → dc = true →
      probeForumThread expectedThreadId dc first second = ((attemptOnce expectedThreadId second).1, 2))
    ∧ (first.ok = true → first.message_thread_id = none → dc = true →
       second.ok = true → second.message_thread_id = some a → a ≠ expectedThreadId →
      probeForumThread expectedThreadId dc first second = (ProbeStatus.redirected a, 2)) := by
  refine ⟨?_, ?_, ?_⟩
  · intro hok hth hne
    unfold probeForumThread attemptOnce
    rw [hok, hth]
    simp [hne]
  · intro hok hth hdc
    unfold probeForumThread
    rw [hdc]
    have hfirst : (attemptOnce expectedThreadId first).1 = ProbeStatus.missing_thread_id := by
      unfold attemptOnce
      rw [hok, hth]
      simp
    simp [hfirst]
  · intro hok hth hdc hok2 hth2 hne
    unfold probeForumThread
    rw [hdc]
    have hfirst : (attemptOnce expectedThreadId first).1 = ProbeStatus.missing_thread_id := by
      unfold attemptOnce
      rw [hok, hth]
      simp
    have hsecond : (attemptOnce expectedThreadId second).1 = ProbeStatus.redirected a := by
      unfold attemptOnce
      rw [hok2, hth2]
      simp [hne]
    simp [hfirst, hsecond]

/-- Witness for C7 at a concrete input: probing expected thread 5 whose
send is acknowledged into thread 7 classifies `redirected`, not `ok`. -/
theorem c7_probe_redirect_classification_witness :
    probeForumThread 5 true
      { ok := true, description := none, message_thread_id := some 7, message_id := some 11 }
      { ok := true, description := none, message_thread_id := some 5, message_id := some 12 }
      = (ProbeStatus.redirected 7, 1) :=
  (c7_probe_redirect_classification 5 true
    { ok := true, description := none, message_thread_id := some 7, message_id := some 11 }
    { ok := true, description := none, message_thread_id := some 5, message_id := some 12 } 7).1
    rfl rfl (by decide)

/-! ### C2: exact admission counting under serialized execution -/

theorem alookup_mapReplace {β : Type} {t : List (String × β)} {k : String} (v : β)
    (hany : (t.any fun r => r.1 == k) = true) :
    alookup (t.map (fun r => if r.1 == k then (r.1, v) else r)) k = some v := by
  induction t with
  | nil => simp at hany
  | cons a rest ih =>
    by_cases hak : a.1 = k
    · unfold alookup
      rw [List.map_cons, if_pos (by simp [hak] : (a.1 == k) = true)]
      rw [List.find?_cons_of_pos _ (by simp [hak])]
      rfl
    · have hrest : (rest.any fun r => r.1 == k) = true := by
        rcases List.any_eq_true.mp hany with ⟨r, hr, hrk⟩
        rcases List.mem_cons.mp hr with h1 | h2
        · exact absurd (by simpa using hrk) (h1 ▸ hak)
        · exact List.any_eq_true.mpr ⟨r, h2, hrk⟩
      unfold alookup
      rw [List.map_cons, if_neg (by simp [hak] : ¬ (a.1 == k) = true)]
      rw [List.find?_cons_of_neg _ (by simp [hak])]
      exact ih hrest

theorem alookup_append_single {β : Type} {t : List (String × β)} {k : String} (v : β)
    (hnone : (t.any fun r => r.1 == k) = false) :
    alookup (t ++ [(k, v)]) k = some v := by
  induction t with
  | nil => simp [alookup]
  | cons a rest ih =>
    rw [List.any_cons] at hnone
    have ⟨ha, hrest⟩ := Bool.or_eq_false_iff.mp hnone
    rw [List.cons_append]
    unfold alookup
    rw [List.find?_cons_of_neg _ (by simp_all)]
    exact ih hrest

theorem alookup_sqlUpsert_const {β : Type} (t : List (String × β)) (k : String) (v : β) :
    alookup (sqlUpsert t k v (fun _ => v)) k = some v := by
  unfold sqlUpsert
  by_cases hany : (t.any fun r => r.1 == k) = true
  · rw [if_pos hany]
    exact alookup_mapReplace v hany
  · rw [if_neg hany]
    exact alookup_append_single v (Bool.eq_false_iff.mpr hany)

theorem runChecks_length (key : String) (limit window : Int) :
    ∀ (ts : List Int) (st : DOState),
    (runChecks key limit window st ts).1.length = ts.length := by
  intro ts
  induction ts with
  | nil => intro st; rfl
  | cons t rest ih =>
    intro st
    simp only [runChecks, List.length_cons]
    rw [ih]

theorem count_true_add_count_false (l : List Bool) :
    l.count true + l.count false = l.length := by
  induction l with
  | nil => rfl
  | cons b rest ih =>
    cases b <;> simp [List.count_cons] <;> omega

theorem runChecks_cached_window_count (key : String) (limit window t0 : Int) :
    ∀ (ts : List Int) (st : DOState) (c e : Int),
    alookup st.cache key = some { count := c, expiresAt := e } →
    t0 + window * 1000 ≤ e →
    (∀ t ∈ ts, t0 ≤ t ∧ t < t0 + window * 1000) →
    ((runChecks key limit window st ts).1.count true : Int)
      = max 0 (min (limit - c) (ts.length : Int)) := by
  intro ts
  induction ts with
  | nil =>
    intro st c e _ _ _
    simp only [runChecks, List.count_nil, Nat.cast_zero, List.length_nil]
    omega
  | cons t rest ih =>
    intro st c e hcache hwin htimes
    have ht := htimes t (List.mem_cons_self t rest)
    have hfast : t < e := lt_of_lt_of_le ht.2 hwin
    by_cases hsat : limit ≤ c
    · have h1 : (checkBody t st key limit window).1 = { allowed := false, remaining := 0 } := by
        simp [checkBody, hcache, hfast, hsat]
      have h2 : (checkBody t st key limit window).2 = st := by
        simp [checkBody, hcache, hfast, hsat]
      simp only [runChecks, h1, h2]
      rw [List.count_cons]
      have htail := ih st c e hcache hwin
        (fun x hx => htimes x (List.mem_cons_of_mem t hx))
      simp only [List.length_cons]
      simp only [show ((false == true) = true) = False by simp, if_false]
      push_cast
      push_cast at htail
      omega
    · have hlt : c < limit := lt_of_not_le hsat
      have h1 : (checkBody t st key limit window).1
          = { allowed := true, remaining := limit - (c + 1) } := by
        simp [checkBody, hcache, hfast, hsat]
      have h2 : (checkBody t st key limit window).2.cache
          = sqlUpsert st.cache key
              { count := c + 1, expiresAt := t + window * 1000 }
              (fun _ => { count := c + 1, expiresAt := t + window * 1000 }) := by
        simp [checkBody, hcache, hfast, hsat]
      have hcache2 : alookup (checkBody t st key limit window).2.cache key
          = some { count := c + 1, expiresAt := t + window * 1000 } := by
        rw [h2]
        exact alookup_sqlUpsert_const _ _ _
      have hwin2 : t0 + window * 1000 ≤ t + window * 1000 := by
        have := ht.1
        omega
      have htail := ih (checkBody t st key limit window).2 (c + 1)
        (t + window * 1000) hcache2 hwin2
        (fun x hx => htimes x (List.mem_cons_of_mem t hx))
      simp only [runChecks, h1]
      rw [List.count_cons]
      simp only [List.length_cons]
      simp only [show ((true == true) = true) = True by simp, if_true]
      push_cast
      push_cast at htail
      omega

/-- C2: with limit `limit` and window `window`, a serial run of
`limit + k` `check` calls on a fresh key, all within the window opened
by the first call, admits exactly `limit` of them and rejects exactly
the remaining `k`. Serialization is the Durable Object's execution
model, embodied by `runChecks` threading the state through the calls in
order. -/
theorem c2_rate_limit_exact (key : String) (limit window t0 : Int)
    (rest : List Int) (st : DOState) (k : Int)
    (hlim : 1 ≤ limit)
    (hcache0 : alookup st.cache key = none)
    (hdb0 : alookup st.rate_limits key = none)
    (htimes : ∀ t ∈ rest, t0 ≤ t ∧ t < t0 + window * 1000)
    (hlen : (rest.length : Int) = limit - 1 + k)
    (hk : 1 ≤ k) :
    ((runChecks key limit window st (t0 :: rest)).1.count true : Int) = limit
    ∧ ((runChecks key limit window st (t0 :: rest)).1.count false : Int) = k := by
  have h1 : (checkBody t0 st key limit window).1 = { allowed := true, remaining := limit - 1 } := by
    simp [checkBody, checkCold, checkReset, hcache0, hdb0]
  have h2 : (checkBody t0 st key limit window).2.cache
      = sqlUpsert st.cache key
          { count := 1, expiresAt := t0 + window * 1000 }
          (fun _ => { count := 1, expiresAt := t0 + window * 1000 }) := by
    simp [checkBody, checkCold, checkReset, hcache0, hdb0]
  have hcache2 : alookup (checkBody t0 st key limit window).2.cache key
      = some { count := 1, expiresAt := t0 + window * 1000 } := by
    rw [h2]
    exact alookup_sqlUpsert_const _ _ _
  have htail := runChecks_cached_window_count key limit window t0 rest
    (checkBody t0 st key limit window).2 1 (t0 + window * 1000) hcache2 (le_refl _) htimes
  have hlength := runChecks_length key limit window rest (checkBody t0 st key limit window).2
  have hcnt := count_true_add_count_false
    (runChecks key limit window (checkBody t0 st key limit window).2 rest).1
  constructor
  · simp only [runChecks, h1]
    rw [List.count_cons]
    simp only [show ((true == true) = true) = True by simp, if_true]
    push_cast
    push_cast at htail
    omega
  · simp only [runChecks, h1]
    rw [List.count_cons]
    simp only [show ((true == false) = true) = False by simp, if_false]
    have hfc : ((runChecks key limit window (checkBody t0 st key limit window).2 rest).1.count false : Int)
        = (rest.length : Int) - max 0 (min (limit - 1) (rest.length : Int)) := by
      push_cast at htail hcnt
      rw [hlength] at hcnt
      omega
    push_cast
    push_cast at hfc
    omega

/-- Witness for C2 at a concrete input: with limit 2 and window 60, four
calls at 0, 1, 2, 3 milliseconds admit exactly 2 and reject exactly 2. -/
theorem c2_rate_limit_exact_witness :
    ((runChecks "m:7" 2 60 DOState.empty [0, 1, 2, 3]).1.count true : Int) = 2
    ∧ ((runChecks "m:7" 2 60 DOState.empty [0, 1, 2, 3]).1.count false : Int) = 2 :=
  c2_rate_limit_exact "m:7" 2 60 0 [1, 2, 3] DOState.empty 2
    (by decide) (by decide) (by decide)
    (by intro t ht; fin_cases ht <;> constructor <;> decide)
    (by decide) (by decide)

/-! ### C3: the fast path can outlive the durable window -/

/-- C3: divergence exhibit. With `limit = 2`, `window = 1` second, the
serial run `check` at 0 ms and 500 ms leaves the durable record
`\x7b count: 2, expires_at: 1000 \x7d` but an in-memory cache entry whose
window was silently extended to 1500 ms by the fast path. A third call
at 1200 ms — after the durable window expired — is answered from the
cache with `allowed = false`, while the documented algorithm (record
absent or expired: reset the window with `count = 1`) run on the durable
record, the declared source of truth, returns `allowed = true`. -/
theorem c3_check_cache_window_divergence :
    (checkBody 1200 (checkBody 500 (checkBody 0 DOState.empty "k" 2 1).2 "k" 2 1).2
        "k" 2 1).1.allowed = false
    ∧ alookup (checkBody 500 (checkBody 0 DOState.empty "k" 2 1).2 "k" 2 1).2.rate_limits "k"
        = some { count := 2, expires_at := 1000, created_at := 0, updated_at := 500 }
    ∧ alookup (checkBody 500 (checkBody 0 DOState.empty "k" 2 1).2 "k" 2 1).2.cache "k"
        = some { count := 2, expiresAt := 1500 }
    ∧ (checkSpecAlgorithm 1200
        (alookup (checkBody 500 (checkBody 0 DOState.empty "k" 2 1).2 "k" 2 1).2.rate_limits "k")
        2 1).1.allowed = true := by
  refine ⟨rfl, rfl, rfl, rfl⟩

/-! ### C5 and C10: withUserLock under heartbeat loss, and release on exit -/

theorem wulExec_foldl_performed (schedule : List WulEvent) :
    ∀ st : WulState,
    (schedule.foldl wulStep st).performed
      = st.performed ++ st.stepsLeft.take (schedule.count WulEvent.sectionStep) := by
  induction schedule with
  | nil =>
    intro st
    simp
  | cons e rest ih =>
    intro st
    cases e with
    | sectionStep =>
      rw [List.foldl_cons]
      cases hsteps : st.stepsLeft with
      | nil =>
        have hstep : wulStep st WulEvent.sectionStep = st := by
          unfold wulStep
          rw [hsteps]
        rw [hstep, ih st, hsteps]
        simp
      | cons s restSteps =>
        have hstep : wulStep st WulEvent.sectionStep
            = { st with performed := st.performed ++ [s],
                        afterLost := if st.heartbeatError then st.afterLost ++ [s] else st.afterLost,
                        stepsLeft := restSteps } := by
          unfold wulStep
          rw [hsteps]
        rw [hstep, ih]
        simp only [List.count_cons, hsteps]
        simp [List.take_succ_cons, List.append_assoc]
    | heartbeatRenew b =>
      rw [List.foldl_cons]
      have hcnt : ((WulEvent.heartbeatRenew b :: rest).count WulEvent.sectionStep)
          = rest.count WulEvent.sectionStep := by
        simp [List.count_cons]
      rw [hcnt]
      have hfields : (wulStep st (WulEvent.heartbeatRenew b)).performed = st.performed
          ∧ (wulStep st (WulEvent.heartbeatRenew b)).stepsLeft = st.stepsLeft := by
        simp only [wulStep]
        by_cases h1 : st.stopHeartbeat = true
        · simp [h1]
        · by_cases h2 : b = true
          · simp [h1, h2]
          · simp [h1, h2]
      rw [ih, hfields.1, hfields.2]
    | heartbeatThrow =>
      rw [List.foldl_cons]
      have hcnt : ((WulEvent.heartbeatThrow :: rest).count WulEvent.sectionStep)
          = rest.count WulEvent.sectionStep := by
        simp [List.count_cons]
      rw [hcnt]
      have hstep : wulStep st WulEvent.heartbeatThrow = st := rfl
      rw [hstep, ih]

/-- C5 counterexample: a schedule in which the heartbeat renewal is
rejected after the first of two section steps. The rejection is
observed while the critical section is still running, yet the second
externally-visible side effect (step 1) is still performed afterwards
(`effectsAfterLost = [1]`), contradicting the claim that no further
externally-visible side effects of the critical section are performed
after the rejection is observed. -/
theorem c5_side_effects_continue_after_loss :
    (runWithUserLock "private_flow" "tokA" [0, 1] false
        [WulEvent.sectionStep, WulEvent.heartbeatRenew false, WulEvent.sectionStep]).result
      = WulResult.userLockLost
    ∧ (runWithUserLock "private_flow" "tokA" [0, 1] false
        [WulEvent.sectionStep, WulEvent.heartbeatRenew false, WulEvent.sectionStep]).effectsAfterLost
      = [1] := by
  refine ⟨rfl, rfl⟩

/-- C5 amended: when a heartbeat renewal is rejected during
`withUserLock` and the critical section returns normally, the call
fails with `UserLockLostError` instead of returning the section's
result; the in-flight critical section, however, is not interrupted —
the externally-visible effects performed are exactly the scheduled
section steps, independent of where the rejection occurred. -/
theorem c5_heartbeat_loss_fails_call (lockKey ownerToken : String)
    (steps : List Nat) (schedule : List WulEvent)
    (hlost : (wulExec steps schedule).heartbeatError = true) :
    (runWithUserLock lockKey ownerToken steps false schedule).result
      = WulResult.userLockLost
    ∧ (runWithUserLock lockKey ownerToken steps false schedule).effects
      = steps.take (schedule.count WulEvent.sectionStep) := by
  constructor
  · unfold runWithUserLock
    simp [hlost]
  · unfold runWithUserLock
    dsimp only
    unfold wulExec
    rw [wulExec_foldl_performed]
    simp

/-- Witness for C5 at the concrete schedule of the counterexample
input: the call fails with the lock-lost error and both section steps
execute. -/
theorem c5_heartbeat_loss_fails_call_witness :
    (runWithUserLock "private_flow" "tokA" [0, 1] false
        [WulEvent.sectionStep, WulEvent.heartbeatRenew false, WulEvent.sectionStep]).result
      = WulResult.userLockLost
    ∧ (runWithUserLock "private_flow" "tokA" [0, 1] false
        [WulEvent.sectionStep, WulEvent.heartbeatRenew false, WulEvent.sectionStep]).effects
      = ([0, 1] : List Nat).take
          ([WulEvent.sectionStep, WulEvent.heartbeatRenew false,
            WulEvent.sectionStep].count WulEvent.sectionStep) :=
  c5_heartbeat_loss_fails_call "private_flow" "tokA" [0, 1]
    [WulEvent.sectionStep, WulEvent.heartbeatRenew false, WulEvent.sectionStep] rfl

/-- C10: every completed `withUserLock` execution — whether the
critical section returned or threw, and whatever the heartbeat
schedule did — stops the heartbeat and invokes the release with
exactly the acquired `lockKey` and `ownerToken`; and the release RPC
deletes every `user_locks` row carrying that key and token, so the
lease does not survive the call (except, in the real system, by prior
TTL expiry of the row itself). -/
theorem c10_lock_released_on_exit (lockKey ownerToken : String)
    (steps : List Nat) (fnThrows : Bool) (schedule : List WulEvent)
    (locks : List (String × LockRow)) :
    (runWithUserLock lockKey ownerToken steps fnThrows schedule).releaseCalledWith
      = some (lockKey, ownerToken)
    ∧ (runWithUserLock lockKey ownerToken steps fnThrows schedule).heartbeatStopped = true
    ∧ (releaseLock locks lockKey ownerToken).2.countP
        (fun r => r.1 == lockKey && r.2.owner_token == ownerToken) = 0 := by
  refine ⟨rfl, rfl, ?_⟩
  unfold releaseLock sqlDeleteWhere
  dsimp only
  apply List.countP_eq_zero.mpr
  intro r hr
  have h2 := (List.mem_filter.mp hr).2
  simp only [Bool.not_eq_true'] at h2
  simp [h2]

/-! ### C8: the pending message set -/

theorem trimPending_isSuffix (l : List Int) : List.IsSuffix (trimPending l) l := by
  unfold trimPending
  split
  · exact List.drop_suffix _ l
  · exact List.suffix_refl l

theorem trimPending_length (l : List Int) :
    (trimPending l).length = min l.length PENDING_MAX_MESSAGES := by
  unfold trimPending
  split
  · next h =>
    rw [List.length_drop]
    omega
  · next h =>
    omega

theorem pendingBase_appendPending (c : ChalRec) (m : Int) :
    pendingBase (appendPending c m)
      = if (pendingBase c).contains m then pendingBase c
        else trimPending (pendingBase c ++ [m]) := by
  unfold appendPending
  split
  · next h =>
    rw [if_pos h]
  · next h =>
    rw [if_neg h]
    rfl

theorem pendingInvariant_appendPending (c : ChalRec) (m : Int)
    (h : (pendingBase c).Nodup ∧ (pendingBase c).length ≤ PENDING_MAX_MESSAGES) :
    (pendingBase (appendPending c m)).Nodup
    ∧ (pendingBase (appendPending c m)).length ≤ PENDING_MAX_MESSAGES := by
  rw [pendingBase_appendPending]
  split
  · exact h
  · next hnot =>
    have hmem : m ∉ pendingBase c := by
      intro hmem
      exact hnot (List.elem_eq_true_of_mem hmem)
    have hnodup : (pendingBase c ++ [m]).Nodup := by
      rw [List.nodup_append]
      exact ⟨h.1, List.nodup_singleton m, by
        intro a ha hb
        simp only [List.mem_singleton] at hb
        subst hb
        exact hmem ha⟩
    constructor
    · exact hnodup.sublist (trimPending_isSuffix _).sublist
    · rw [trimPending_length]
      omega

theorem pendingInvariant_foldl (ms : List Int) :
    ∀ c : ChalRec,
    (pendingBase c).Nodup ∧ (pendingBase c).length ≤ PENDING_MAX_MESSAGES →
    (pendingBase (ms.foldl appendPending c)).Nodup
    ∧ (pendingBase (ms.foldl appendPending c)).length ≤ PENDING_MAX_MESSAGES := by
  induction ms with
  | nil => intro c h; exact h
  | cons m rest ih =>
    intro c h
    exact ih (appendPending c m) (pendingInvariant_appendPending c m h)

theorem pendingInvariant_freshChal (userId answerIndex : Int) (options : List String)
    (m0 : Option Int) :
    (pendingBase (freshChal userId answerIndex options m0)).Nodup
    ∧ (pendingBase (freshChal userId answerIndex options m0)).length
        ≤ PENDING_MAX_MESSAGES := by
  unfold freshChal pendingBase
  dsimp only
  split <;> simp [PENDING_MAX_MESSAGES]

theorem replayPending_marker_mono (ids : List Int) :
    ∀ (markers : List Int) (m : Int), m ∈ markers →
    m ∈ (replayPending ids markers).2 := by
  induction ids with
  | nil => intro markers m hm; exact hm
  | cons i rest ih =>
    intro markers m hm
    simp only [replayPending]
    by_cases h0 : i = 0
    · rw [if_pos h0]; exact ih markers m hm
    · rw [if_neg h0]
      by_cases hc : markers.contains i
      · rw [if_pos hc]; exact ih markers m hm
      · rw [if_neg hc]
        exact ih (markers ++ [i]) m (List.mem_append_left _ hm)

theorem replayPending_skips_marked (ids : List Int) :
    ∀ (markers : List Int) (m : Int), m ∈ markers →
    m ∉ (replayPending ids markers).1 := by
  induction ids with
  | nil => intro markers m _ hmem; simp [replayPending] at hmem
  | cons i rest ih =>
    intro markers m hm
    simp only [replayPending]
    by_cases h0 : i = 0
    · rw [if_pos h0]; exact ih markers m hm
    · rw [if_neg h0]
      by_cases hc : markers.contains i
      · rw [if_pos hc]; exact ih markers m hm
      · rw [if_neg hc]
        intro hmem
        rcases List.mem_cons.mp hmem with h1 | h2
        · subst h1
          exact absurd (List.elem_eq_true_of_mem hm) hc
        · exact ih (markers ++ [i]) m (List.mem_append_left _ hm) h2

theorem replayPending_forwarded_marked (ids : List Int) :
    ∀ (markers : List Int) (m : Int), m ∈ (replayPending ids markers).1 →
    m ∈ (replayPending ids markers).2 := by
  induction ids with
  | nil => intro markers m hmem; simp [replayPending] at hmem
  | cons i rest ih =>
    intro markers m hmem
    simp only [replayPending] at hmem ⊢
    by_cases h0 : i = 0
    · rw [if_pos h0] at hmem ⊢; exact ih markers m hmem
    · rw [if_neg h0] at hmem ⊢
      by_cases hc : markers.contains i
      · rw [if_pos hc] at hmem ⊢; exact ih markers m hmem
      · rw [if_neg hc] at hmem ⊢
        rcases List.mem_cons.mp hmem with h1 | h2
        · subst h1
          exact replayPending_marker_mono rest (markers ++ [m]) m
            (List.mem_append_right _ (List.mem_singleton_self m))
        · exact ih (markers ++ [i]) m h2

theorem replayPending_count_le_one (ids : List Int) :
    ∀ (markers : List Int) (m : Int),
    (replayPending ids markers).1.count m ≤ 1 := by
  induction ids with
  | nil => intro markers m; simp [replayPending]
  | cons i rest ih =>
    intro markers m
    simp only [replayPending]
    by_cases h0 : i = 0
    · rw [if_pos h0]; exact ih markers m
    · rw [if_neg h0]
      by_cases hc : markers.contains i
      · rw [if_pos hc]; exact ih markers m
      · rw [if_neg hc]
        dsimp only
        rw [List.count_cons]
        by_cases him : i = m
        · subst him
          have hzero : (replayPending rest (markers ++ [i])).1.count i = 0 :=
            List.count_eq_zero.mpr (replayPending_skips_marked rest (markers ++ [i]) i
              (List.mem_append_right _ (List.mem_singleton_self i)))
          simp [hzero]
        · have heq : ((i == m) = true) = False := by simp [him]
          simp only [heq, if_false]
          simpa using ih (markers ++ [i]) m

theorem replayPending_twice_at_most_once (ids markers : List Int) (m : Int) :
    ((replayPending ids markers).1
      ++ (replayPending ids (replayPending ids markers).2).1).count m ≤ 1 := by
  rw [List.count_append]
  by_cases hmem : m ∈ (replayPending ids markers).1
  · have h1 := replayPending_count_le_one ids markers m
    have hmarked := replayPending_forwarded_marked ids markers m hmem
    have hzero : (replayPending ids (replayPending ids markers).2).1.count m = 0 :=
      List.count_eq_zero.mpr
        (replayPending_skips_marked ids (replayPending ids markers).2 m hmarked)
    omega
  · have h1 : (replayPending ids markers).1.count m = 0 := List.count_eq_zero.mpr hmem
    have h2 := replayPending_count_le_one ids (replayPending ids markers).2 m
    omega

/-- C8: starting from a freshly created challenge, any serial sequence
of pending-message enqueues keeps the stored pending set free of
duplicate message ids and within the `PENDING_MAX_MESSAGES = 10` bound;
trimming always keeps a suffix (the newest entries, dropping the
oldest first); and replaying the pending set twice — the second replay
modelling a retried completion callback running against the markers
written by the first — forwards each message id at most once, guarded
by the per-message `forwarded:` dedup marker. -/
theorem c8_pending_set_properties (userId answerIndex : Int) (options : List String)
    (m0 : Option Int) (ms : List Int) (markers : List Int) (x : Int) :
    (pendingBase (ms.foldl appendPending (freshChal userId answerIndex options m0))).Nodup
    ∧ (pendingBase (ms.foldl appendPending (freshChal userId answerIndex options m0))).length
        ≤ PENDING_MAX_MESSAGES
    ∧ (∀ l : List Int, List.IsSuffix (trimPending l) l)
    ∧ ((replayPending (replayedIds (ms.foldl appendPending (freshChal userId answerIndex options m0))) markers).1
        ++ (replayPending (replayedIds (ms.foldl appendPending (freshChal userId answerIndex options m0)))
            (replayPending (replayedIds (ms.foldl appendPending (freshChal userId answerIndex options m0))) markers).2).1).count x
        ≤ 1 := by
  have hinv := pendingInvariant_foldl ms (freshChal userId answerIndex options m0)
    (pendingInvariant_freshChal userId answerIndex options m0)
  refine ⟨hinv.1, hinv.2, trimPending_isSuffix, ?_⟩
  exact replayPending_twice_at_most_once _ markers x

/-! ### C6: destination loss drives one Lost transition -/

theorem resetUserVerification_fresh (hasD1 : Bool) (st : RouterState)
    (userId tid msgId : Int) (verifyId : String) (answerIndex : Int)
    (options : List String)
    (hchal : st.user_challenge = none) (hmsg : msgId ≠ 0) :
    resetUserVerification hasD1 st userId true (some tid) (some msgId) true
        verifyId answerIndex options
      = { verified := false, needs_verify := true, retry := none,
          userRec := if hasD1 then some { thread_id := none, title := none, closed := false } else none,
          threadUser := st.threadUser.filter (fun r => decide (r.1 ≠ tid)),
          thread_ok := st.thread_ok.filter (fun x => decide (x ≠ tid)),
          healthCacheOk := st.healthCacheOk.filter (fun x => decide (x ≠ tid)),
          user_challenge := some verifyId,
          chal := sqlUpsert st.chal verifyId
            (freshChal userId answerIndex options (some msgId))
            (fun _ => freshChal userId answerIndex options (some msgId)) } := by
  cases hasD1 with
  | false =>
    simp [resetUserVerification, sendVerificationChallenge, sendFreshChallenge,
      jsTruthy, hmsg, hchal]
  | true =>
    simp [resetUserVerification, sendVerificationChallenge, sendFreshChallenge,
      jsTruthy, hmsg, hchal]

/-- C6: any observed destination loss — a probe classification in
`redirected` / `missing` / confirmed `missing_thread_id`, or a
successful forward acknowledged into a different thread (quiet
redirect, whose orphaned copy is deleted first when its id is known) —
drives the one shared `Lost` transition `resetUserVerification` with
the triggering message id; and that transition clears the thread
binding, deletes the durable (`thread_ok`) and in-process
(`threadHealthCache`) health markers of the old thread, sets the
`needs_verify` marker, clears the verified state, and issues a
verification challenge whose pending set holds exactly the triggering
message (stated here for a user with no outstanding challenge and an
admitting verify rate limit). -/
theorem c6_destination_loss_lost_transition (hasD1 : Bool) (st : RouterState)
    (userId tid msgId actual : Int) (verifyId : String) (answerIndex : Int)
    (options : List String) (probe : ProbeStatus) (copyresult : TgSendResult)
    (lost : RouterState)
    (hlost : lost = resetUserVerification hasD1 st userId true (some tid)
        (some msgId) true verifyId answerIndex options)
    (hprobe : probe = ProbeStatus.redirected actual ∨ probe = ProbeStatus.missing
        ∨ probe = ProbeStatus.missing_thread_id)
    (hok : copyresult.ok = true)
    (hth : copyresult.message_thread_id = some actual)
    (hne : actual ≠ tid)
    (hchal : st.user_challenge = none)
    (hmsg : msgId ≠ 0) :
    (handleHealthProbe hasD1 st userId true tid msgId true verifyId answerIndex
        options probe)
      = (lost, true)
    ∧ (handleForwardAck hasD1 st userId true tid msgId true verifyId answerIndex
        options copyresult)
      = ((match copyresult.message_id with
          | some m => [m]
          | none => []), lost, true)
    ∧ bindingThreadId lost = none
    ∧ tid ∉ lost.thread_ok
    ∧ tid ∉ lost.healthCacheOk
    ∧ lost.needs_verify = true
    ∧ lost.verified = false
    ∧ lost.user_challenge = some verifyId
    ∧ alookup lost.chal verifyId = some (freshChal userId answerIndex options (some msgId))
    ∧ pendingBase (freshChal userId answerIndex options (some msgId)) = [msgId] := by
  have hfresh := resetUserVerification_fresh hasD1 st userId tid msgId verifyId
    answerIndex options hchal hmsg
  refine ⟨?_, ?_, ?_, ?_, ?_, ?_, ?_, ?_, ?_, ?_⟩
  · rcases hprobe with h | h | h <;> subst h <;> rw [hlost] <;> rfl
  · rw [hlost]
    unfold handleForwardAck
    rw [hth]
    dsimp only
    rw [if_pos ⟨hok, hne⟩]
  · rw [hlost, hfresh]
    unfold bindingThreadId
    cases hasD1 <;> simp
  · rw [hlost, hfresh]
    simp [List.mem_filter]
  · rw [hlost, hfresh]
    simp [List.mem_filter]
  · rw [hlost, hfresh]
  · rw [hlost, hfresh]
  · rw [hlost, hfresh]
  · rw [hlost, hfresh]
    dsimp only
    exact alookup_sqlUpsert_const _ _ _
  · simp [freshChal, pendingBase, jsTruthy, hmsg]

/-- Witness for C6 at a concrete input: user 9 bound to thread 4, probe
classified `redirected 3` and a forward acknowledged into thread 3;
both triggers produce the identical Lost-transition state, shown here
through its observable fields. -/
theorem c6_destination_loss_lost_transition_witness :
    (handleHealthProbe false
        { verified := true, needs_verify := false, retry := some 1,
          userRec := some { thread_id := some 4, title := some "t", closed := false },
          threadUser := [(4, 9)], thread_ok := [4], healthCacheOk := [4],
          user_challenge := none, chal := [] }
        9 true 4 21 true "vid1" 0 ["a", "b"] (ProbeStatus.redirected 3))
      = (resetUserVerification false
          { verified := true, needs_verify := false, retry := some 1,
            userRec := some { thread_id := some 4, title := some "t", closed := false },
            threadUser := [(4, 9)], thread_ok := [4], healthCacheOk := [4],
            user_challenge := none, chal := [] }
          9 true (some 4) (some 21) true "vid1" 0 ["a", "b"], true)
    ∧ bindingThreadId (resetUserVerification false
          { verified := true, needs_verify := false, retry := some 1,
            userRec := some { thread_id := some 4, title := some "t", closed := false },
            threadUser := [(4, 9)], thread_ok := [4], healthCacheOk := [4],
            user_challenge := none, chal := [] }
          9 true (some 4) (some 21) true "vid1" 0 ["a", "b"]) = none := by
  have h := c6_destination_loss_lost_transition false
    { verified := true, needs_verify := false, retry := some 1,
      userRec := some { thread_id := some 4, title := some "t", closed := false },
      threadUser := [(4, 9)], thread_ok := [4], healthCacheOk := [4],
      user_challenge := none, chal := [] }
    9 4 21 3 "vid1" 0 ["a", "b"] (ProbeStatus.redirected 3)
    { ok := true, description := none, message_thread_id := some 3, message_id := some 99 }
    (resetUserVerification false
      { verified := true, needs_verify := false, retry := some 1,
        userRec := some { thread_id := some 4, title := some "t", closed := false },
        threadUser := [(4, 9)], thread_ok := [4], healthCacheOk := [4],
        user_challenge := none, chal := [] }
      9 true (some 4) (some 21) true "vid1" 0 ["a", "b"])
    rfl (Or.inl rfl) rfl rfl (by decide) rfl (by decide)
  exact ⟨h.1, h.2.2.1⟩

end RelayBot
